import Mathlib

/-!
Verification of the two-component Poisson-mixture EM fitter from
`assignment-04/em.ipynb`.

The notebook code is embedded shallowly over the rationals.  Floating-point
transcendentals are abstracted: `pexp` stands for the float `np.exp` and
`plog` for `np.log`; every theorem below is parametric in them, so it holds
for any approximation the runtime supplies.  Division follows the Lean
convention `x / 0 = 0`; the source's float arithmetic instead produces
`inf`/`NaN` there, and the spots where this matters are flagged in the
doc comments.  Sample points are the non-negative integer counts the data
model prescribes.
-/

namespace EM

/-- The four model parameters `(mu1, mu2, pi1, pi2)` that the notebook keeps
in separate variables: Poisson rates and mixture proportions of the two
components. -/
structure MixtureState where
  mu1 : ℚ
  mu2 : ℚ
  pi1 : ℚ
  pi2 : ℚ
  deriving DecidableEq

/-- `initialize_parameters()` from the notebook (renamed): returns the fixed
initial guesses `mean = 2.0, 5.0`, `proportion = 0.5, 0.5`. -/
def init_params : MixtureState := ⟨2, 5, 1/2, 1/2⟩

/-- Unnormalized responsibility of component 1 at a point, the notebook's
`r1 = pi1 * np.exp(-mu1) * (mu1**data) / factorial(data)` before the
in-place normalization. -/
def u1 (pexp : ℚ → ℚ) (s : MixtureState) (x : ℕ) : ℚ :=
  s.pi1 * pexp (-s.mu1) * s.mu1 ^ x / (Nat.factorial x : ℚ)

/-- Unnormalized responsibility of component 2, the notebook's
`r2 = pi2 * np.exp(-mu2) * (mu2**data) / factorial(data)` before
normalization. -/
def u2 (pexp : ℚ → ℚ) (s : MixtureState) (x : ℕ) : ℚ :=
  s.pi2 * pexp (-s.mu2) * s.mu2 ^ x / (Nat.factorial x : ℚ)

/-- The notebook's `total_responsibility = r1 + r2` (unnormalized). -/
def total (pexp : ℚ → ℚ) (s : MixtureState) (x : ℕ) : ℚ :=
  u1 pexp s x + u2 pexp s x

/-- Normalized responsibility of component 1 at a point: `r1 /= total_responsibility`. -/
def r1 (pexp : ℚ → ℚ) (s : MixtureState) (x : ℕ) : ℚ :=
  u1 pexp s x / total pexp s x

/-- Normalized responsibility of component 2 at a point: `r2 /= total_responsibility`. -/
def r2 (pexp : ℚ → ℚ) (s : MixtureState) (x : ℕ) : ℚ :=
  u2 pexp s x / total pexp s x

/-- `np.sum(r1)` over the sample (normalized responsibilities). -/
def sumR1 (pexp : ℚ → ℚ) (data : List ℕ) (s : MixtureState) : ℚ :=
  (data.map (fun x => r1 pexp s x)).sum

/-- `np.sum(r2)` over the sample (normalized responsibilities). -/
def sumR2 (pexp : ℚ → ℚ) (data : List ℕ) (s : MixtureState) : ℚ :=
  (data.map (fun x => r2 pexp s x)).sum

/-- `np.sum(r1 * data)` over the sample. -/
def sumR1X (pexp : ℚ → ℚ) (data : List ℕ) (s : MixtureState) : ℚ :=
  (data.map (fun x => r1 pexp s x * (x : ℚ))).sum

/-- `np.sum(r2 * data)` over the sample. -/
def sumR2X (pexp : ℚ → ℚ) (data : List ℕ) (s : MixtureState) : ℚ :=
  (data.map (fun x => r2 pexp s x * (x : ℚ))).sum

/-- One full E-step plus M-step of `em_algorithm`: compute the normalized
responsibilities under the entering state, then
`pi1 = np.mean(r1)`, `pi2 = 1 - pi1`,
`mu1 = np.sum(r1*data)/np.sum(r1)`, `mu2 = np.sum(r2*data)/np.sum(r2)`.
(`np.mean` is sum divided by length.) -/
def emStep (pexp : ℚ → ℚ) (data : List ℕ) (s : MixtureState) : MixtureState :=
  { mu1 := sumR1X pexp data s / sumR1 pexp data s
    mu2 := sumR2X pexp data s / sumR2 pexp data s
    pi1 := sumR1 pexp data s / (data.length : ℚ)
    pi2 := 1 - sumR1 pexp data s / (data.length : ℚ) }

/-- The notebook's `log_likelihood = np.sum(np.log(total_responsibility))`,
computed from the unnormalized responsibility sums of the entering
(pre-update) state. -/
def loglik (pexp plog : ℚ → ℚ) (data : List ℕ) (s : MixtureState) : ℚ :=
  (data.map (fun x => plog (total pexp s x))).sum

/-- The `for iteration in range(max_iter)` loop of `em_algorithm`.
Each pass computes the log-likelihood of the entering state, runs the
E/M update, appends the log-likelihood, and breaks — returning the
updated state, the trace, and whether the `Converged` diagnostic was
emitted — when `iteration > 0` and the last two trace entries differ by
less than `tol`.  The `Bool` in the result records the convergence
print (`False` when the iteration budget is exhausted instead). -/
def emLoop (pexp plog : ℚ → ℚ) (data : List ℕ) (tol : ℚ) :
    ℕ → ℕ → MixtureState → List ℚ → MixtureState × List ℚ × Bool
  | 0, _, s, lls => (s, lls, false)
  | fuel + 1, iteration, s, lls =>
    let ll := loglik pexp plog data s
    let s' := emStep pexp data s
    let lls' := lls ++ [ll]
    if 0 < iteration ∧ |ll - lls.getLastD 0| < tol then (s', lls', true)
    else emLoop pexp plog data tol fuel (iteration + 1) s' lls'

/-- The body of `em_algorithm` run from a given starting state: the loop
entered at `iteration = 0` with an empty trace. -/
def emFitFrom (pexp plog : ℚ → ℚ) (data : List ℕ) (s0 : MixtureState)
    (tol : ℚ) (max_iter : ℕ) : MixtureState × List ℚ × Bool :=
  emLoop pexp plog data tol max_iter 0 s0 []

/-- `em_algorithm(data, tol, max_iter)` from the notebook.  The `globals`
argument models the module-level parameter variables set elsewhere in the
notebook; the function ignores it because its first statement rebinds the
local parameters from `initialize_parameters()`.  The result packages the
returned `(mu1, mu2, pi1, pi2)` as a `MixtureState`, the returned
`log_likelihoods` list, and the convergence diagnostic as a `Bool`. -/
def emAlgorithm (pexp plog : ℚ → ℚ) (globals : MixtureState) (data : List ℕ)
    (tol : ℚ) (max_iter : ℕ) : MixtureState × List ℚ × Bool :=
  emFitFrom pexp plog data init_params tol max_iter

/-- The state entering iteration `k` of the loop when started from `s0`:
`k`-fold application of the E/M update. -/
def emIterFrom (pexp : ℚ → ℚ) (data : List ℕ) (s0 : MixtureState) : ℕ → MixtureState
  | 0 => s0
  | k + 1 => emStep pexp data (emIterFrom pexp data s0 k)

/-- The log-likelihood recorded by iteration `k` of a run started from `s0`. -/
def llAt (pexp plog : ℚ → ℚ) (data : List ℕ) (s0 : MixtureState) (k : ℕ) : ℚ :=
  loglik pexp plog data (emIterFrom pexp data s0 k)

/-- The loop's stopping condition as evaluated at iteration `j`:
`iteration > 0` and the last two recorded log-likelihoods are within `tol`. -/
def stopCond (pexp plog : ℚ → ℚ) (data : List ℕ) (s0 : MixtureState) (tol : ℚ)
    (j : ℕ) : Prop :=
  0 < j ∧ |llAt pexp plog data s0 j - llAt pexp plog data s0 (j - 1)| < tol

instance stopCondDec (pexp plog : ℚ → ℚ) (data : List ℕ) (s0 : MixtureState)
    (tol : ℚ) (j : ℕ) : Decidable (stopCond pexp plog data s0 tol j) :=
  inferInstanceAs (Decidable (_ ∧ _))

/-- Modelled from the spec: the per-iteration update formulas of §4.1 as the
spec states them, with `r2(x) = 1 - r1(x)`, `weight_2' = 1 - weight_1'`,
`mean_k' = Σ(rk(x)·x)/Σ(rk(x))`.  Used to compare the source's `emStep`
against the spec's formulas. -/
def emStepSpec (pexp : ℚ → ℚ) (data : List ℕ) (s : MixtureState) : MixtureState :=
  let r1s : ℕ → ℚ := fun x => u1 pexp s x / (u1 pexp s x + u2 pexp s x)
  let r2s : ℕ → ℚ := fun x => 1 - r1s x
  let w1 : ℚ := (data.map r1s).sum / (data.length : ℚ)
  { mu1 := (data.map (fun x => r1s x * (x : ℚ))).sum / (data.map r1s).sum
    mu2 := (data.map (fun x => r2s x * (x : ℚ))).sum / (data.map r2s).sum
    pi1 := w1
    pi2 := 1 - w1 }

/-- Concrete instantiation of the abstract exponential used in witnesses. -/
def pexpOne : ℚ → ℚ := fun _ => 1

/-- Concrete instantiation of the abstract logarithm used in witnesses. -/
def plogZero : ℚ → ℚ := fun _ => 0

/-- Concrete exponential that is identically zero, realizing in the model the
vanishing responsibility masses that the float code reaches through
underflow/overflow (e.g. `factorial(x) = inf` for `x ≥ 171` makes every
unnormalized responsibility `0.0`). -/
def pexpZero : ℚ → ℚ := fun _ => 0

/-- An arbitrary module-level parameter state, used to show `em_algorithm`
ignores it. -/
def gArb : MixtureState := ⟨3, 7, 1/4, 3/4⟩

/-- C9: for every state and sample point, the normalized responsibilities
computed in the E-step sum to `1`, provided the unnormalized sum is
nonzero. -/
theorem em_resp_sum_one (pexp : ℚ → ℚ) (s : MixtureState) (x : ℕ)
    (h : total pexp s x ≠ 0) : r1 pexp s x + r2 pexp s x = 1 := by
  unfold r1 r2
  rw [div_add_div_same]
  exact div_self h

/-- Witness for C9 at `pexp = pexpOne`, the initial state, and the point `0`. -/
theorem em_resp_sum_one_w :
    r1 pexpOne init_params 0 + r2 pexpOne init_params 0 = 1 :=
  em_resp_sum_one pexpOne init_params 0
    (by norm_num [total, u1, u2, pexpOne, init_params])

/-- C8: at every iteration boundary of a run of `em_algorithm` — the initial
state before iteration 0 and the state after each M-step — the mixture
weights sum to `1` exactly, because the M-step sets `pi2 = 1 - pi1`. -/
theorem em_weights_sum_one (pexp : ℚ → ℚ) (data : List ℕ) (k : ℕ) :
    (emIterFrom pexp data init_params k).pi1 +
      (emIterFrom pexp data init_params k).pi2 = 1 := by
  cases k with
  | zero => norm_num [emIterFrom, init_params]
  | succ k => simp [emIterFrom, emStep]

/-- C10: `em_algorithm` has no initial-state input: it ignores the
module-level parameter state and always restarts from
`initialize_parameters()`, i.e. `(2, 5, 1/2, 1/2)`, so two calls with the
same sample, tolerance and iteration cap agree regardless of that state. -/
theorem em_ignores_global_state (pexp plog : ℚ → ℚ) (g g' : MixtureState)
    (data : List ℕ) (tol : ℚ) (max_iter : ℕ) :
    emAlgorithm pexp plog g data tol max_iter =
        emAlgorithm pexp plog g' data tol max_iter ∧
      emAlgorithm pexp plog g data tol max_iter =
        emFitFrom pexp plog data init_params tol max_iter ∧
      init_params = ⟨2, 5, 1/2, 1/2⟩ :=
  ⟨rfl, rfl, rfl⟩

/-- C4 counterexample: at a concrete input where component 1's responsibility
mass `Σ r1` is zero entering the M-step, `em_algorithm` does not abort with
any error: it performs the divisions (the rational model's `x / 0 = 0`
standing for the float `NaN`) and returns a normal state and trace.  The
vanishing mass is realized by instantiating the abstract exponential with
the zero function, the value the float exponential/factorial pipeline
produces by underflow/overflow. -/
theorem em_degenerate_no_abort_cex :
    sumR1 pexpZero [0] init_params = 0 ∧
      emAlgorithm pexpZero plogZero gArb [0] 1 1 = (⟨0, 0, 0, 1⟩, [0], false) := by
  constructor
  · norm_num [sumR1, r1, u1, u2, total, pexpZero, init_params]
  · norm_num [emAlgorithm, emFitFrom, emLoop, loglik, emStep, sumR1, sumR2,
      sumR1X, sumR2X, r1, r2, u1, u2, total, pexpZero, plogZero, init_params]

/-- C4 amended: the reference has no degeneracy guard.  When a component's
responsibility mass `Σ rk` is zero, the M-step performs the division by
zero anyway (yielding the junk value `0` under the rational convention,
`NaN` in floats) and no error is raised — the updated state is returned
normally. -/
theorem em_degenerate_divides (pexp : ℚ → ℚ) (data : List ℕ) (s : MixtureState) :
    (sumR1 pexp data s = 0 → (emStep pexp data s).mu1 = 0) ∧
      (sumR2 pexp data s = 0 → (emStep pexp data s).mu2 = 0) := by
  constructor
  · intro h
    simp [emStep, h]
  · intro h
    simp [emStep, h]

/-- Witness for C4's amended theorem at the degenerate concrete input. -/
theorem em_degenerate_divides_w :
    (emStep pexpZero [0] init_params).mu1 = 0 :=
  (em_degenerate_divides pexpZero [0] init_params).1
    (by norm_num [sumR1, r1, u1, u2, total, pexpZero, init_params])

/-- C3 counterexample: on the malformed input of an empty sample,
`em_algorithm` does not fail fast: no validation error is surfaced, the
loop runs (the trace receives one entry for the completed iteration) and
the M-step executes (the returned state differs from the initial one). -/
theorem em_no_validation_cex :
    (emAlgorithm pexpOne plogZero gArb [] 1 1).2.1.length = 1 ∧
      (emAlgorithm pexpOne plogZero gArb [] 1 1).1 ≠ init_params := by
  have h : emAlgorithm pexpOne plogZero gArb [] 1 1 = (⟨0, 0, 0, 1⟩, [0], false) := by
    norm_num [emAlgorithm, emFitFrom, emLoop, loglik, emStep, sumR1, sumR2,
      sumR1X, sumR2X, r1, r2, u1, u2, total, pexpOne, plogZero, init_params]
  rw [h]
  norm_num [init_params]

/-! ### Loop characterization

The following helper lemmas describe a run of the `for` loop of
`em_algorithm` in closed form: the loop follows the iterated E/M update
`emIterFrom`, records `llAt` once per iteration, and stops at the first
iteration `j ≥ 1` whose last two recorded log-likelihoods are within the
tolerance, or when the fuel (`max_iter`) runs out. -/

lemma emLoop_succ (pexp plog : ℚ → ℚ) (data : List ℕ) (tol : ℚ) (fuel it : ℕ)
    (s : MixtureState) (lls : List ℚ) :
    emLoop pexp plog data tol (fuel + 1) it s lls =
      if 0 < it ∧ |loglik pexp plog data s - lls.getLastD 0| < tol
      then (emStep pexp data s, lls ++ [loglik pexp plog data s], true)
      else emLoop pexp plog data tol fuel (it + 1) (emStep pexp data s)
        (lls ++ [loglik pexp plog data s]) := rfl

lemma emIterFrom_succ (pexp : ℚ → ℚ) (data : List ℕ) (s0 : MixtureState) (k : ℕ) :
    emIterFrom pexp data s0 (k + 1) = emStep pexp data (emIterFrom pexp data s0 k) := rfl

lemma getLastD_map_range (f : ℕ → ℚ) (m : ℕ) :
    ((List.range (m + 1)).map f).getLastD 0 = f m := by
  rw [List.range_succ, List.map_append]
  simp

lemma trace_succ (pexp plog : ℚ → ℚ) (data : List ℕ) (s0 : MixtureState) (it : ℕ) :
    (List.range (it + 1)).map (llAt pexp plog data s0) =
      (List.range it).map (llAt pexp plog data s0) ++ [llAt pexp plog data s0 it] := by
  rw [List.range_succ, List.map_append]
  rfl

lemma cond_iff_stopCond (pexp plog : ℚ → ℚ) (data : List ℕ) (s0 : MixtureState)
    (tol : ℚ) (it : ℕ) :
    (0 < it ∧ |loglik pexp plog data (emIterFrom pexp data s0 it) -
        ((List.range it).map (llAt pexp plog data s0)).getLastD 0| < tol) ↔
      stopCond pexp plog data s0 tol it := by
  cases it with
  | zero => simp [stopCond]
  | succ m =>
    rw [getLastD_map_range]
    unfold stopCond llAt
    simp

lemma emLoop_no_stop (pexp plog : ℚ → ℚ) (data : List ℕ) (s0 : MixtureState) (tol : ℚ) :
    ∀ fuel it,
      (∀ j, it ≤ j → j < it + fuel → ¬ stopCond pexp plog data s0 tol j) →
      emLoop pexp plog data tol fuel it (emIterFrom pexp data s0 it)
          ((List.range it).map (llAt pexp plog data s0)) =
        (emIterFrom pexp data s0 (it + fuel),
          (List.range (it + fuel)).map (llAt pexp plog data s0), false) := by
  intro fuel
  induction fuel with
  | zero => intro it _; simp [emLoop]
  | succ f ih =>
    intro it h
    have hnot : ¬ stopCond pexp plog data s0 tol it := h it le_rfl (by omega)
    rw [emLoop_succ, if_neg (fun hc => hnot ((cond_iff_stopCond pexp plog data s0 tol it).mp hc))]
    have hrec := ih (it + 1) (fun j hj1 hj2 => h j (by omega) (by omega))
    rw [trace_succ] at hrec
    have harith : it + 1 + f = it + (f + 1) := by omega
    rw [harith] at hrec
    exact hrec

lemma emLoop_stop (pexp plog : ℚ → ℚ) (data : List ℕ) (s0 : MixtureState) (tol : ℚ) :
    ∀ fuel it j0, it ≤ j0 → j0 < it + fuel →
      stopCond pexp plog data s0 tol j0 →
      (∀ j, it ≤ j → j < j0 → ¬ stopCond pexp plog data s0 tol j) →
      emLoop pexp plog data tol fuel it (emIterFrom pexp data s0 it)
          ((List.range it).map (llAt pexp plog data s0)) =
        (emIterFrom pexp data s0 (j0 + 1),
          (List.range (j0 + 1)).map (llAt pexp plog data s0), true) := by
  intro fuel
  induction fuel with
  | zero => intro it j0 hle hlt _ _; omega
  | succ f ih =>
    intro it j0 hle hlt hstop hmin
    rw [emLoop_succ]
    rcases Nat.eq_or_lt_of_le hle with heq | hgt
    · subst heq
      rw [if_pos ((cond_iff_stopCond pexp plog data s0 tol it).mpr hstop)]
      rw [trace_succ]
      rfl
    · have hnot : ¬ stopCond pexp plog data s0 tol it := hmin it le_rfl hgt
      rw [if_neg (fun hc => hnot ((cond_iff_stopCond pexp plog data s0 tol it).mp hc))]
      have hrec := ih (it + 1) j0 hgt (by omega) hstop
        (fun j hj1 hj2 => hmin j (by omega) hj2)
      rw [trace_succ] at hrec
      exact hrec

/-- Closed-form description of a full run of the loop body of `em_algorithm`
from a starting state: there is a number of completed iterations
`k ∈ [1, max_iter]` such that the returned state is the `k`-fold E/M
update of the start, the trace lists the per-iteration log-likelihoods in
order, the convergence flag holds exactly when the stopping condition
fired at the last completed iteration, and a `false` flag means the cap
was exhausted with the stopping condition never firing. -/
lemma emFitFrom_run (pexp plog : ℚ → ℚ) (data : List ℕ) (s0 : MixtureState)
    (tol : ℚ) (maxIter : ℕ) (hm : 1 ≤ maxIter) :
    ∃ k, 1 ≤ k ∧ k ≤ maxIter ∧
      (emFitFrom pexp plog data s0 tol maxIter).1 = emIterFrom pexp data s0 k ∧
      (emFitFrom pexp plog data s0 tol maxIter).2.1 =
        (List.range k).map (llAt pexp plog data s0) ∧
      ((emFitFrom pexp plog data s0 tol maxIter).2.2 = true ↔
        stopCond pexp plog data s0 tol (k - 1)) ∧
      ((emFitFrom pexp plog data s0 tol maxIter).2.2 = false →
        k = maxIter ∧ ∀ j, j < maxIter → ¬ stopCond pexp plog data s0 tol j) := by
  by_cases hex : ∃ j, stopCond pexp plog data s0 tol j ∧ j < maxIter
  · have hspec := Nat.find_spec hex
    have hrun := emLoop_stop pexp plog data s0 tol maxIter 0 (Nat.find hex)
      (Nat.zero_le _) (by have := hspec.2; omega) hspec.1
      (fun j _ hj hs => Nat.find_min hex hj ⟨hs, by have := hspec.2; omega⟩)
    have hfit : emFitFrom pexp plog data s0 tol maxIter =
        (emIterFrom pexp data s0 (Nat.find hex + 1),
          (List.range (Nat.find hex + 1)).map (llAt pexp plog data s0), true) := hrun
    refine ⟨Nat.find hex + 1, by omega, by have := hspec.2; omega, ?_, ?_, ?_, ?_⟩
    · rw [hfit]
    · rw [hfit]
    · rw [hfit]
      constructor
      · intro _
        simpa using hspec.1
      · intro _
        rfl
    · rw [hfit]
      intro hcontra
      simp at hcontra
  · have hall : ∀ j, j < maxIter → ¬ stopCond pexp plog data s0 tol j := by
      intro j hj hs
      exact hex ⟨j, hs, hj⟩
    have hrun := emLoop_no_stop pexp plog data s0 tol maxIter 0
      (fun j _ hj hs => hall j (by omega) hs)
    have hfit : emFitFrom pexp plog data s0 tol maxIter =
        (emIterFrom pexp data s0 (0 + maxIter),
          (List.range (0 + maxIter)).map (llAt pexp plog data s0), false) := hrun
    rw [Nat.zero_add] at hfit
    refine ⟨maxIter, hm, le_rfl, by rw [hfit], by rw [hfit], ?_, ?_⟩
    · rw [hfit]
      constructor
      · intro hcontra
        simp at hcontra
      · intro hs
        exact absurd hs (hall (maxIter - 1) (by omega))
    · rw [hfit]
      intro _
      exact ⟨rfl, hall⟩

/-- C1: for every valid input (non-empty sample, positive tolerance, positive
iteration cap), `em_algorithm` returns the `MixtureState` of the iteration
where stopping triggered (the `k`-fold E/M update of the initial state,
`k` the number of completed iterations), the full trace with one
log-likelihood per completed iteration in order, and the convergence
indicator (the modeled `Converged` diagnostic), which holds exactly when
stopping was due to the tolerance check rather than the cap. -/
theorem em_fit_contract (pexp plog : ℚ → ℚ) (g : MixtureState) (data : List ℕ)
    (tol : ℚ) (maxIter : ℕ) (hd : data ≠ []) (htol : 0 < tol) (hm : 1 ≤ maxIter) :
    ∃ k, 1 ≤ k ∧ k ≤ maxIter ∧
      (emAlgorithm pexp plog g data tol maxIter).1 = emIterFrom pexp data init_params k ∧
      (emAlgorithm pexp plog g data tol maxIter).2.1 =
        (List.range k).map (llAt pexp plog data init_params) ∧
      ((emAlgorithm pexp plog g data tol maxIter).2.2 = true ↔
        stopCond pexp plog data init_params tol (k - 1)) := by
  obtain ⟨k, h1, h2, h3, h4, h5, _⟩ :=
    emFitFrom_run pexp plog data init_params tol maxIter hm
  exact ⟨k, h1, h2, h3, h4, h5⟩

/-- Witness for C1 at a concrete valid input. -/
theorem em_fit_contract_w :
    ∃ k, 1 ≤ k ∧ k ≤ 1 ∧
      (emAlgorithm pexpOne plogZero gArb [0] 1 1).1 = emIterFrom pexpOne [0] init_params k ∧
      (emAlgorithm pexpOne plogZero gArb [0] 1 1).2.1 =
        (List.range k).map (llAt pexpOne plogZero [0] init_params) ∧
      ((emAlgorithm pexpOne plogZero gArb [0] 1 1).2.2 = true ↔
        stopCond pexpOne plogZero [0] init_params 1 (k - 1)) :=
  em_fit_contract pexpOne plogZero gArb [0] 1 1 (by simp) (by norm_num) (by norm_num)

/-- C5: the run reports convergence exactly when some iteration `j ≥ 1` below
the cap finds its last two log-likelihoods within the tolerance; otherwise
it runs to the cap and reports non-convergence.  In particular, with
`max_iter = 1` the trace has exactly one entry and convergence is never
reported, since the check requires `iteration > 0`. -/
theorem em_stopping_rule (pexp plog : ℚ → ℚ) (g : MixtureState) (data : List ℕ)
    (tol : ℚ) (maxIter : ℕ) (hm : 1 ≤ maxIter) :
    ((emAlgorithm pexp plog g data tol maxIter).2.2 = true ↔
      ∃ j, j < maxIter ∧ stopCond pexp plog data init_params tol j) ∧
    (maxIter = 1 → (emAlgorithm pexp plog g data tol maxIter).2.1.length = 1 ∧
      (emAlgorithm pexp plog g data tol maxIter).2.2 = false) := by
  have heq : emAlgorithm pexp plog g data tol maxIter =
      emFitFrom pexp plog data init_params tol maxIter := rfl
  rw [heq]
  obtain ⟨k, h1, h2, h3, h4, h5, h6⟩ :=
    emFitFrom_run pexp plog data init_params tol maxIter hm
  constructor
  · constructor
    · intro hcv
      exact ⟨k - 1, by omega, h5.mp hcv⟩
    · rintro ⟨j, hj, hsj⟩
      by_contra hne
      have hf : (emFitFrom pexp plog data init_params tol maxIter).2.2 = false := by
        cases hb : (emFitFrom pexp plog data init_params tol maxIter).2.2
        · rfl
        · exact absurd hb hne
      obtain ⟨-, hall⟩ := h6 hf
      exact hall j hj hsj
  · intro h1eq
    subst h1eq
    have hk : k = 1 := by omega
    subst hk
    constructor
    · rw [h4]
      simp
    · cases hb : (emFitFrom pexp plog data init_params tol 1).2.2
      · rfl
      · have hs := h5.mp hb
        exact absurd hs.1 (by omega)

/-- Witness for C5 at a concrete input with `max_iter = 1`. -/
theorem em_stopping_rule_w :
    ((emAlgorithm pexpOne plogZero gArb [0] 1 1).2.2 = true ↔
      ∃ j, j < 1 ∧ stopCond pexpOne plogZero [0] init_params 1 j) ∧
    (1 = 1 → (emAlgorithm pexpOne plogZero gArb [0] 1 1).2.1.length = 1 ∧
      (emAlgorithm pexpOne plogZero gArb [0] 1 1).2.2 = false) :=
  em_stopping_rule pexpOne plogZero gArb [0] 1 1 (by norm_num)

/-- C6: every completed iteration appends exactly one log-likelihood to the
trace — entry `i` is `Σ log(u1(x) + u2(x))` computed from the state
*entering* iteration `i` (the pre-update parameters) — and the trace length
equals the number of completed iterations, with the final state being that
many E/M updates of the initial state. -/
theorem em_trace_per_iteration (pexp plog : ℚ → ℚ) (g : MixtureState) (data : List ℕ)
    (tol : ℚ) (maxIter : ℕ) (hm : 1 ≤ maxIter) :
    1 ≤ (emAlgorithm pexp plog g data tol maxIter).2.1.length ∧
      (emAlgorithm pexp plog g data tol maxIter).2.1.length ≤ maxIter ∧
      (emAlgorithm pexp plog g data tol maxIter).1 =
        emIterFrom pexp data init_params
          (emAlgorithm pexp plog g data tol maxIter).2.1.length ∧
      ∀ i, i < (emAlgorithm pexp plog g data tol maxIter).2.1.length →
        (emAlgorithm pexp plog g data tol maxIter).2.1.getD i 0 =
          loglik pexp plog data (emIterFrom pexp data init_params i) := by
  have heq : emAlgorithm pexp plog g data tol maxIter =
      emFitFrom pexp plog data init_params tol maxIter := rfl
  rw [heq]
  obtain ⟨k, h1, h2, h3, h4, -, -⟩ :=
    emFitFrom_run pexp plog data init_params tol maxIter hm
  have hlen : (emFitFrom pexp plog data init_params tol maxIter).2.1.length = k := by
    rw [h4]
    simp
  refine ⟨by omega, by omega, by rw [hlen, h3], ?_⟩
  intro i hi
  rw [hlen] at hi
  rw [h4, List.getD_eq_getElem _ _ (by simpa using hi)]
  simp [llAt]

/-- Witness for C6 at a concrete input. -/
theorem em_trace_per_iteration_w :
    1 ≤ (emAlgorithm pexpOne plogZero gArb [0] 1 1).2.1.length ∧
      (emAlgorithm pexpOne plogZero gArb [0] 1 1).2.1.length ≤ 1 ∧
      (emAlgorithm pexpOne plogZero gArb [0] 1 1).1 =
        emIterFrom pexpOne [0] init_params
          (emAlgorithm pexpOne plogZero gArb [0] 1 1).2.1.length ∧
      ∀ i, i < (emAlgorithm pexpOne plogZero gArb [0] 1 1).2.1.length →
        (emAlgorithm pexpOne plogZero gArb [0] 1 1).2.1.getD i 0 =
          loglik pexpOne plogZero [0] (emIterFrom pexpOne [0] init_params i) :=
  em_trace_per_iteration pexpOne plogZero gArb [0] 1 1 (by norm_num)

/-- C3 amended: the reference performs no input validation — on the malformed
empty sample the loop still runs, appending one trace entry per completed
iteration, and returns normally with no error. -/
theorem em_empty_sample_runs (pexp plog : ℚ → ℚ) (g : MixtureState) (tol : ℚ)
    (maxIter : ℕ) (hm : 1 ≤ maxIter) :
    1 ≤ (emAlgorithm pexp plog g [] tol maxIter).2.1.length := by
  have heq : emAlgorithm pexp plog g [] tol maxIter =
      emFitFrom pexp plog [] init_params tol maxIter := rfl
  rw [heq]
  obtain ⟨k, h1, -, -, h4, -, -⟩ := emFitFrom_run pexp plog [] init_params tol maxIter hm
  rw [h4]
  simpa using h1

/-- Witness for C3's amended theorem at a concrete cap. -/
theorem em_empty_sample_runs_w :
    1 ≤ (emAlgorithm pexpOne plogZero gArb [] 1 1).2.1.length :=
  em_empty_sample_runs pexpOne plogZero gArb 1 1 (by norm_num)

set_option maxHeartbeats 1000000 in
/-- C2 counterexample: a concrete run that converges to a final state which
is a genuine fixed point of the E/M update, yet rerunning the fit from
that state produces a trace of length `2`, not `1`: the convergence check
requires `iteration > 0`, so no run can ever stop with a single trace
entry.  (The rerun is expressed with `emFitFrom`, the loop started from a
given state, since `em_algorithm` itself accepts no initial state.) -/
theorem em_refit_not_immediate_cex :
    (emAlgorithm pexpOne plogZero gArb [0] 1 2).2.2 = true ∧
      emStep pexpOne [0] (emAlgorithm pexpOne plogZero gArb [0] 1 2).1 =
        (emAlgorithm pexpOne plogZero gArb [0] 1 2).1 ∧
      (emFitFrom pexpOne plogZero [0] (emAlgorithm pexpOne plogZero gArb [0] 1 2).1
          1 2).2.1.length = 2 := by
  have h : emAlgorithm pexpOne plogZero gArb [0] 1 2 = (⟨0, 0, 1/2, 1/2⟩, [0, 0], true) := by
    norm_num [emAlgorithm, emFitFrom, emLoop, loglik, emStep, sumR1, sumR2,
      sumR1X, sumR2X, r1, r2, u1, u2, total, pexpOne, plogZero, init_params]
  have h2 : emFitFrom pexpOne plogZero [0] ⟨0, 0, 1/2, 1/2⟩ 1 2 =
      (⟨0, 0, 1/2, 1/2⟩, [0, 0], true) := by
    norm_num [emFitFrom, emLoop, loglik, emStep, sumR1, sumR2,
      sumR1X, sumR2X, r1, r2, u1, u2, total, pexpOne, plogZero]
  refine ⟨?_, ?_, ?_⟩
  · rw [h]
  · rw [h]
    norm_num [emStep, sumR1, sumR2, sumR1X, sumR2X, r1, r2, u1, u2, total, pexpOne]
  · rw [h]
    show (emFitFrom pexpOne plogZero [0] (⟨0, 0, 1/2, 1/2⟩ : MixtureState) 1 2).2.1.length = 2
    rw [h2]
    rfl

/-- C2 amended: restarting the loop from a state that is a fixed point of the
E/M update, with a positive tolerance and a cap of at least two, converges
at the *second* iteration — the trace has length `2` with both entries
equal and the state is returned unchanged — because the convergence check
needs two trace entries. -/
theorem em_refit_fixed_point (pexp plog : ℚ → ℚ) (data : List ℕ) (s : MixtureState)
    (hfix : emStep pexp data s = s) (tol : ℚ) (htol : 0 < tol) (maxIter : ℕ)
    (hmi : 2 ≤ maxIter) :
    emFitFrom pexp plog data s tol maxIter =
      (s, [loglik pexp plog data s, loglik pexp plog data s], true) := by
  have hiter : ∀ k, emIterFrom pexp data s k = s := by
    intro k
    induction k with
    | zero => rfl
    | succ k ih => rw [emIterFrom_succ, ih, hfix]
  have hstop : stopCond pexp plog data s tol 1 := by
    refine ⟨Nat.one_pos, ?_⟩
    unfold llAt
    rw [hiter, hiter]
    simpa using htol
  have hrun := emLoop_stop pexp plog data s tol maxIter 0 1 (Nat.zero_le _)
    (by omega) hstop (fun j _ hj2 hs => by have := hs.1; omega)
  have hfit : emFitFrom pexp plog data s tol maxIter =
      (emIterFrom pexp data s 2, (List.range 2).map (llAt pexp plog data s), true) := hrun
  have h3 : (List.range 2).map (llAt pexp plog data s) =
      [loglik pexp plog data s, loglik pexp plog data s] := by
    have hr : List.range 2 = [0, 1] := rfl
    rw [hr]
    simp [llAt, hiter]
  rw [hfit, hiter 2, h3]

/-- Witness for C2's amended theorem at the concrete fixed point reached in
the counterexample. -/
theorem em_refit_fixed_point_w :
    emFitFrom pexpOne plogZero [0] ⟨0, 0, 1/2, 1/2⟩ 1 2 =
      (⟨0, 0, 1/2, 1/2⟩, [loglik pexpOne plogZero [0] ⟨0, 0, 1/2, 1/2⟩,
        loglik pexpOne plogZero [0] ⟨0, 0, 1/2, 1/2⟩], true) :=
  em_refit_fixed_point pexpOne plogZero [0] ⟨0, 0, 1/2, 1/2⟩
    (by norm_num [emStep, sumR1, sumR2, sumR1X, sumR2X, r1, r2, u1, u2, total, pexpOne])
    1 (by norm_num) 2 (by norm_num)

/-- C7: each iteration computes exactly the reference E/M step of the spec:
whenever every point's unnormalized responsibility sum is nonzero, the
source's update (which normalizes `r2 = u2/(u1+u2)`) coincides with the
spec's formulas (which set `r2 = 1 - r1`). -/
theorem em_step_matches_formulas (pexp : ℚ → ℚ) (data : List ℕ) (s : MixtureState)
    (h : ∀ x ∈ data, total pexp s x ≠ 0) :
    emStep pexp data s = emStepSpec pexp data s := by
  have hpt : ∀ x ∈ data, r2 pexp s x = 1 - r1 pexp s x := by
    intro x hx
    have ht := h x hx
    unfold total at ht
    unfold r1 r2 total
    field_simp
  have h2 : data.map (fun x => r2 pexp s x) =
      data.map (fun x => 1 - r1 pexp s x) :=
    List.map_congr_left hpt
  have h2x : data.map (fun x => r2 pexp s x * (x : ℚ)) =
      data.map (fun x => (1 - r1 pexp s x) * (x : ℚ)) :=
    List.map_congr_left (fun x hx => by rw [hpt x hx])
  simp only [emStep, emStepSpec, MixtureState.mk.injEq]
  refine ⟨rfl, ?_, rfl, rfl⟩
  unfold sumR2X sumR2
  rw [h2, h2x]
  rfl

/-- Witness for C7 at a concrete input with nonvanishing responsibility sums. -/
theorem em_step_matches_formulas_w :
    emStep pexpOne [0] init_params = emStepSpec pexpOne [0] init_params :=
  em_step_matches_formulas pexpOne [0] init_params
    (by intro x hx
        simp only [List.mem_singleton] at hx
        subst hx
        norm_num [total, u1, u2, pexpOne, init_params])

end EM
